import Mathlib

/-!
Verification of the TOML template formatter (`src/toml.rs`): the
`TomlFormatter` state machine (indentation, nesting stack, output buffer),
its event methods, and the expression printer. Parts of the repository that
live outside the provided module (the generic traversal `format::format`,
`format::Options`, `meta::Expr`, the provided `make_gap` method of the
`Formatter` trait, and the external `toml::to_string` serializer) are
modelled from the specification, as marked on each definition.
-/

namespace Confique

/-- Modelled from the spec: `meta::Expr` (module `meta` is not in the provided
sources) is a tagged variant representing a literal default value: boolean,
integer, string, or sequence. -/
inductive Expr where
  | str (s : String)
  | boolean (b : Bool)
  | integer (n : Int)
  | array (elems : List Expr)

/-- Modelled from the spec: escaping of one character inside a TOML basic
string, part of the behaviour of the external `toml::to_string` serializer
on string values ("a quoted, escaped string"). -/
def escapeTomlChar (c : Char) : String :=
  if c = '"' then "\\\""
  else if c = '\\' then "\\\\"
  else if c = '\n' then "\\n"
  else if c = '\t' then "\\t"
  else if c = '\r' then "\\r"
  else String.mk [c]

/-- Modelled from the spec: the TOML literal text of a string value. -/
def tomlStringLiteral (s : String) : String :=
  "\"" ++ String.join (s.data.map escapeTomlChar) ++ "\""

mutual
/-- Modelled from the spec: the external `toml::to_string` serializer,
producing "exactly the literal syntax for that value in the target format".
On the representable subset modelled here it always succeeds. -/
def tomlToString : Expr → String
  | .str s => tomlStringLiteral s
  | .boolean b => if b then "true" else "false"
  | .integer n => toString n
  | .array xs => "[" ++ String.intercalate ", " (tomlToStringList xs) ++ "]"

/-- Pointwise serialization of a list of expressions. -/
def tomlToStringList : List Expr → List String
  | [] => []
  | e :: es => tomlToString e :: tomlToStringList es
end

/-- Shallow embedding of `impl fmt::Display for PrintExpr` (src/toml.rs
lines 169-175): the serializer result is unwrapped with
`.expect("string serialization to TOML failed")`, so a serialization failure
aborts the process with that diagnostic instead of being returned as a
recoverable formatting error, and a success is formatted verbatim. The
external serializer `toml::to_string` is taken as a parameter `ser`; an
`Except.error` result models the fatal panic. -/
def printExprDisplay (ser : Expr → Except String String) (e : Expr) :
    Except String String :=
  match ser e with
  | .error _ => .error "string serialization to TOML failed"
  | .ok s => .ok s

/-- Shallow embedding of `toml::FormatOptions` together with the fields of
the non-TOML-specific `format::Options` it contains. `indent` is the `u8`
from src/toml.rs; `comments` and `nested_field_gap` are modelled from the
spec (module `format` is not in the provided sources): `general.comments`
defaults to true, `general.nested_field_gap` to an external format default. -/
structure FormatOptions where
  indent : Nat
  comments : Bool
  nested_field_gap : Nat
deriving DecidableEq, Repr

/-- Shallow embedding of `impl Default for FormatOptions`: indent 0; the
general defaults are modelled from the spec (comments on by default). -/
def FormatOptions.default : FormatOptions :=
  { indent := 0, comments := true, nested_field_gap := 1 }

/-- Shallow embedding of `struct TomlFormatter` (src/toml.rs lines 99-103):
indentation width, growable output buffer, nesting stack. The stack is kept
in the same order as the Rust `Vec` (root first, most recent section last). -/
structure TomlFormatter where
  indent : Nat
  buffer : String
  stack : List String
deriving DecidableEq, Repr

namespace TomlFormatter

/-- Shallow embedding of `TomlFormatter::new` (src/toml.rs lines 105-112). -/
def new (options : FormatOptions) : TomlFormatter :=
  { indent := options.indent, buffer := "", stack := [] }

/-- A run of `n` space characters, the result of the padded write
`write!(self.buffer, "{: <1$}", "", num_spaces)`. -/
def spaces (n : Nat) : String :=
  String.mk (List.replicate n ' ')

/-- Shallow embedding of `TomlFormatter::emit_indentation` (src/toml.rs
lines 114-117): appends `stack.len() * indent` spaces to the buffer. -/
def emit_indentation (f : TomlFormatter) : TomlFormatter :=
  { f with buffer := f.buffer ++ spaces (f.stack.length * f.indent) }

/-- Shallow embedding of `TomlFormatter::comment` (src/toml.rs lines
127-130): indentation, then `#`, the comment text, and a newline. -/
def comment (f : TomlFormatter) (c : String) : TomlFormatter :=
  let f := f.emit_indentation
  { f with buffer := f.buffer ++ "#" ++ c ++ "\n" }

/-- Shallow embedding of `TomlFormatter::disabled_field` (src/toml.rs lines
132-137): a commented-out assignment, with the printed default when one is
present. The expression printer is instantiated with the modelled serializer
`tomlToString`, which is total on the modelled representable subset. -/
def disabled_field (f : TomlFormatter) (name : String) (value : Option Expr) :
    TomlFormatter :=
  match value with
  | none => f.comment (name ++ " =")
  | some v => f.comment (name ++ " = " ++ tomlToString v)

/-- Shallow embedding of `TomlFormatter::start_nested` (src/toml.rs lines
139-144): push the section name, emit each doc line as a comment, then the
indentation and the bracketed dot-joined path header built from the full
stack. -/
def start_nested (f : TomlFormatter) (name : String) (doc : List String) :
    TomlFormatter :=
  let f1 : TomlFormatter := { f with stack := f.stack ++ [name] }
  let f2 := doc.foldl (fun acc d => acc.comment d) f1
  let f3 := f2.emit_indentation
  { f3 with
    buffer := f3.buffer ++ "[" ++ String.intercalate "." f3.stack ++ "]\n" }

/-- Shallow embedding of `TomlFormatter::end_nested` (src/toml.rs lines
146-148): `self.stack.pop().expect("formatter bug: stack empty")`. The
`Except.error` case models the fatal panic on an empty stack. -/
def end_nested (f : TomlFormatter) : Except String TomlFormatter :=
  if f.stack.isEmpty then .error "formatter bug: stack empty"
  else .ok { f with stack := f.stack.dropLast }

/-- Modelled from the spec: the provided `make_gap` method of the
`Formatter` trait (module `format`, not in the provided sources), which for
gap size `n` "emits a single blank-line gap (exactly one line)" when `n`
is 1; modelled as appending `n` newline characters. -/
def make_gap (f : TomlFormatter) (n : Nat) : TomlFormatter :=
  { f with buffer := f.buffer ++ String.mk (List.replicate n '\n') }

/-- Shallow embedding of `TomlFormatter::start_main` (src/toml.rs lines
150-152): `self.make_gap(1)`. -/
def start_main (f : TomlFormatter) : TomlFormatter :=
  f.make_gap 1

/-- Shallow embedding of `TomlFormatter::finish` (src/toml.rs lines
154-157): asserts the stack is empty (the `Except.error` case models the
fatal assertion failure) and returns the accumulated buffer. -/
def finish (f : TomlFormatter) : Except String String :=
  if f.stack.isEmpty then .ok f.buffer
  else .error "formatter bug: stack not empty"

end TomlFormatter

/-- One event of the `Formatter` protocol, as invoked by the external
depth-first traversal `format::format` (modelled from the spec: the
traversal is not in the provided sources, so a run is represented by the
ordered list of formatter-method calls it makes). -/
inductive Event where
  | comment (c : String)
  | disabled_field (name : String) (value : Option Expr)
  | start_nested (name : String) (doc : List String)
  | end_nested
  | start_main

/-- Applies one protocol event to the formatter state; `Except.error`
models a fatal panic inside the event method. -/
def step (f : TomlFormatter) : Event → Except String TomlFormatter
  | .comment c => .ok (f.comment c)
  | .disabled_field n v => .ok (f.disabled_field n v)
  | .start_nested n d => .ok (f.start_nested n d)
  | .end_nested => f.end_nested
  | .start_main => .ok f.start_main

/-- Runs a sequence of protocol events from a formatter state, stopping at
the first fatal panic. -/
def run (f : TomlFormatter) : List Event → Except String TomlFormatter
  | [] => .ok f
  | e :: es =>
    match step f e with
    | .error m => .error m
    | .ok f2 => run f2 es

/-- Shallow embedding of `toml::format` (src/toml.rs lines 93-97): construct
a fresh `TomlFormatter` from the options, drive it with the events of the
external traversal, and finish. The traversal itself is modelled from the
spec as the event list it deterministically produces from the schema and
options. -/
def format (options : FormatOptions) (events : List Event) :
    Except String String :=
  match run (TomlFormatter.new options) events with
  | .error m => .error m
  | .ok f => f.finish

/-- Checks that every `end_nested` in the event list finds a non-empty
stack when run from nesting depth `d`, and that the final depth is zero. -/
def balancedFrom : Nat → List Event → Bool
  | d, [] => d == 0
  | d, .start_nested _ _ :: es => balancedFrom (d + 1) es
  | d, .end_nested :: es =>
    match d with
    | 0 => false
    | d' + 1 => balancedFrom d' es
  | d, _ :: es => balancedFrom d es

/-- The text block produced by emitting each doc line as a comment at a
fixed indentation width `w`: for each line, `w` spaces, `#`, the line, and a
newline. -/
def commentBlock (w : Nat) : List String → String
  | [] => ""
  | d :: ds => TomlFormatter.spaces w ++ "#" ++ d ++ "\n" ++ commentBlock w ds

example :
    format FormatOptions.default
      [Event.start_nested "a" [], Event.start_nested "b" [],
       Event.end_nested, Event.end_nested] =
      .ok "[a]\n[a.b]\n" := rfl

example : tomlToString (.boolean true) = "true" := by decide

example : tomlToString (.array [.integer 1, .str "x"]) = "[1, \"x\"]" := by
  decide

namespace TomlFormatter

theorem spaces_length (n : Nat) : (spaces n).length = n := by
  simp [spaces]

theorem spaces_all_blank (n : Nat) : ∀ c ∈ (spaces n).data, c = ' ' := by
  intro c hc
  exact List.eq_of_mem_replicate hc

theorem spaces_zero : spaces 0 = "" := rfl

theorem comment_def (f : TomlFormatter) (c : String) :
    f.comment c =
      { f with buffer :=
          f.buffer ++ spaces (f.stack.length * f.indent) ++ "#" ++ c ++ "\n" } :=
  rfl

theorem foldl_comment (doc : List String) (f : TomlFormatter) :
    doc.foldl (fun acc d => acc.comment d) f =
      { f with buffer :=
          f.buffer ++ commentBlock (f.stack.length * f.indent) doc } := by
  induction doc generalizing f with
  | nil => simp [commentBlock]
  | cons d ds ih =>
    rw [List.foldl_cons, ih]
    simp [comment, emit_indentation, commentBlock, String.append_assoc]

theorem start_nested_def (f : TomlFormatter) (name : String)
    (doc : List String) :
    f.start_nested name doc =
      { f with
        stack := f.stack ++ [name],
        buffer := f.buffer
          ++ commentBlock ((f.stack.length + 1) * f.indent) doc
          ++ spaces ((f.stack.length + 1) * f.indent)
          ++ "[" ++ String.intercalate "." (f.stack ++ [name]) ++ "]\n" } := by
  simp only [start_nested]
  rw [foldl_comment]
  simp [emit_indentation, String.append_assoc]

end TomlFormatter

theorem TomlFormatter.comment_stack (f : TomlFormatter) (c : String) :
    (f.comment c).stack = f.stack := rfl

theorem TomlFormatter.disabled_field_stack (f : TomlFormatter)
    (name : String) (v : Option Expr) :
    (f.disabled_field name v).stack = f.stack := by
  cases v <;> rfl

theorem TomlFormatter.start_nested_stack (f : TomlFormatter) (name : String)
    (doc : List String) :
    (f.start_nested name doc).stack = f.stack ++ [name] := by
  rw [TomlFormatter.start_nested_def]

theorem run_balanced (es : List Event) :
    ∀ f : TomlFormatter, balancedFrom f.stack.length es = true →
      ∃ g, run f es = .ok g ∧ g.stack = [] := by
  induction es with
  | nil =>
    intro f h
    simp only [balancedFrom, Nat.beq_eq_true_eq] at h
    exact ⟨f, rfl, List.length_eq_zero.mp h⟩
  | cons e es ih =>
    intro f h
    cases e with
    | comment c =>
      obtain ⟨g, hg, hs⟩ := ih (f.comment c)
        (by rw [TomlFormatter.comment_stack]; exact h)
      exact ⟨g, by simp [run, step, hg], hs⟩
    | disabled_field n v =>
      obtain ⟨g, hg, hs⟩ := ih (f.disabled_field n v)
        (by rw [TomlFormatter.disabled_field_stack]; exact h)
      exact ⟨g, by simp [run, step, hg], hs⟩
    | start_main =>
      obtain ⟨g, hg, hs⟩ := ih f.start_main h
      exact ⟨g, by simp [run, step, hg], hs⟩
    | start_nested n d =>
      obtain ⟨g, hg, hs⟩ := ih (f.start_nested n d) (by
        rw [TomlFormatter.start_nested_stack]
        simpa [balancedFrom] using h)
      exact ⟨g, by simp [run, step, hg], hs⟩
    | end_nested =>
      match hst : f.stack with
      | [] =>
        rw [show f.stack.length = 0 by rw [hst]; rfl] at h
        simp [balancedFrom] at h
      | a :: l =>
        have hne : f.stack.isEmpty = false := by rw [hst]; rfl
        have hlen : f.stack.length = l.length + 1 := by rw [hst]; simp
        obtain ⟨g, hg, hs⟩ := ih { f with stack := f.stack.dropLast } (by
          have : f.stack.dropLast.length = l.length := by
            rw [hst, List.length_dropLast]
            simp
          simp only [this]
          rw [hlen] at h
          simpa [balancedFrom] using h)
        refine ⟨g, ?_, hs⟩
        simp [run, step, TomlFormatter.end_nested, hne, hg]

/-- Claim C1: at every `start_nested` call with section name `name`, after
pushing `name` the bracketed header written to the buffer is `[` followed by
all nesting-stack elements from root to `name` joined with `.`, followed by
`]`; in particular a schema with section `a` containing nested section `b`
produces header `[a]` and then `[a.b]`, never `[b]`. -/
theorem start_nested_writes_full_dotted_path (f : TomlFormatter)
    (name : String) (doc : List String) :
    (f.start_nested name doc).stack = f.stack ++ [name]
    ∧ (f.start_nested name doc).buffer =
        f.buffer
          ++ commentBlock ((f.stack.length + 1) * f.indent) doc
          ++ TomlFormatter.spaces ((f.stack.length + 1) * f.indent)
          ++ "[" ++ String.intercalate "." (f.stack ++ [name]) ++ "]\n"
    ∧ (((TomlFormatter.new FormatOptions.default).start_nested "a"
          []).start_nested "b" []).buffer = "[a]\n[a.b]\n" := by
  refine ⟨?_, ?_, rfl⟩ <;> rw [TomlFormatter.start_nested_def]

/-- Claim C2: the indentation prefix emitted before a line consists of
exactly `depth × indent` space characters, where `depth` is the nesting
stack depth and `indent` the indent option value; at depth 0 the prefix is
empty regardless of `indent`. -/
theorem emit_indentation_depth_times_indent (f : TomlFormatter) :
    f.emit_indentation.buffer =
        f.buffer ++ TomlFormatter.spaces (f.stack.length * f.indent)
    ∧ (TomlFormatter.spaces (f.stack.length * f.indent)).length =
        f.stack.length * f.indent
    ∧ (∀ c ∈ (TomlFormatter.spaces (f.stack.length * f.indent)).data, c = ' ')
    ∧ (f.stack.length = 0 → f.emit_indentation.buffer = f.buffer) := by
  refine ⟨rfl, TomlFormatter.spaces_length _,
    TomlFormatter.spaces_all_blank _, fun h => ?_⟩
  simp [TomlFormatter.emit_indentation, h, TomlFormatter.spaces_zero]

/-- Witness for C2 at concrete states: indent 2 with stack depth 2 appends
four spaces; indent 2 at depth 0 appends nothing. -/
theorem emit_indentation_depth_times_indent_witness :
    (⟨2, "x", ["a", "b"]⟩ : TomlFormatter).emit_indentation.buffer =
        "x" ++ TomlFormatter.spaces 4
    ∧ (∀ c ∈ (TomlFormatter.spaces 4).data, c = ' ')
    ∧ (⟨2, "x", []⟩ : TomlFormatter).emit_indentation.buffer = "x" :=
  ⟨(emit_indentation_depth_times_indent ⟨2, "x", ["a", "b"]⟩).1,
   (emit_indentation_depth_times_indent ⟨2, "x", ["a", "b"]⟩).2.2.1,
   (emit_indentation_depth_times_indent ⟨2, "x", []⟩).2.2.2 rfl⟩

/-- Claim C3: `disabled_field` always appends a commented-out assignment
line: with no default, the indentation prefix then `#`, the name, ` =` and a
newline; with a default, the indentation prefix then `#`, the name, ` = `,
the printed default, and a newline. In both cases the text appended after
the indentation prefix starts with `#`, never a live assignment. -/
theorem disabled_field_always_commented (f : TomlFormatter) (name : String) :
    (f.disabled_field name none).buffer =
        f.buffer ++ TomlFormatter.spaces (f.stack.length * f.indent)
          ++ "#" ++ (name ++ " =") ++ "\n"
    ∧ (∀ v, (f.disabled_field name (some v)).buffer =
        f.buffer ++ TomlFormatter.spaces (f.stack.length * f.indent)
          ++ "#" ++ (name ++ " = " ++ tomlToString v) ++ "\n") := by
  constructor
  · rw [show f.disabled_field name none = f.comment (name ++ " =") from rfl,
      TomlFormatter.comment_def]
  · intro v
    rw [show f.disabled_field name (some v) =
        f.comment (name ++ " = " ++ tomlToString v) from rfl,
      TomlFormatter.comment_def]

/-- Claim C6: with comments enabled, `start_nested` emits each doc line in
order as a comment indented at the new depth (the depth after the section
name is pushed), before the bracketed section header is written. The
comments-enabled gating of the doc lines lives in the external traversal
and is modelled by the `if` on `o.comments`. -/
theorem start_nested_doc_at_new_depth (f : TomlFormatter) (name : String)
    (doc : List String) (o : FormatOptions) (h : o.comments = true) :
    (f.start_nested name (if o.comments then doc else [])).buffer =
        f.buffer
          ++ commentBlock ((f.stack.length + 1) * f.indent) doc
          ++ TomlFormatter.spaces ((f.stack.length + 1) * f.indent)
          ++ "[" ++ String.intercalate "." (f.stack ++ [name]) ++ "]\n"
    ∧ (f.start_nested name doc).stack.length = f.stack.length + 1 := by
  rw [h]
  constructor
  · rw [TomlFormatter.start_nested_def]
    simp
  · rw [TomlFormatter.start_nested_def]
    simp

/-- Witness for C6: with default options (comments on), a section `log`
with one doc line under indent 2 yields the indented comment and then the
header. -/
theorem start_nested_doc_at_new_depth_witness :
    ((TomlFormatter.new ⟨2, true, 1⟩).start_nested "log"
        (if FormatOptions.default.comments then ["doc line"] else [])).buffer =
      "" ++ commentBlock 2 ["doc line"] ++ TomlFormatter.spaces 2
        ++ "[" ++ String.intercalate "." ["log"] ++ "]\n" :=
  (start_nested_doc_at_new_depth (TomlFormatter.new ⟨2, true, 1⟩) "log"
    ["doc line"] FormatOptions.default rfl).1

/-- Claim C7: the expression printer unwraps the serializer result with a
fatal panic (diagnostic `string serialization to TOML failed`) when
serialization fails, never returning a recoverable error of its own or
emitting placeholder text; when serialization succeeds it yields exactly
the serialized TOML literal text. -/
theorem print_expr_fatal_on_serializer_failure
    (ser : Expr → Except String String) (e : Expr) :
    (∀ msg, ser e = .error msg →
        printExprDisplay ser e = .error "string serialization to TOML failed")
    ∧ (∀ s, ser e = .ok s → printExprDisplay ser e = .ok s) := by
  constructor <;> intro x h <;> simp [printExprDisplay, h]

/-- Witness for C7: a serializer that rejects a value makes the printer
abort with the fixed diagnostic; the modelled total serializer prints
`true` for the boolean expression `true`. -/
theorem print_expr_fatal_on_serializer_failure_witness :
    printExprDisplay (fun _ => .error "unsupported") (.boolean true) =
        .error "string serialization to TOML failed"
    ∧ printExprDisplay (fun e => .ok (tomlToString e)) (.boolean true) =
        .ok "true" :=
  ⟨(print_expr_fatal_on_serializer_failure
      (fun _ => .error "unsupported") (.boolean true)).1 "unsupported" rfl,
   (print_expr_fatal_on_serializer_failure
      (fun e => .ok (tomlToString e)) (.boolean true)).2 "true"
      (congrArg Except.ok (by decide))⟩

/-- Claim C8: `start_main` emits exactly one blank line into the output (a
single newline appended to the buffer) as a visual separator before
top-level content, and touches nothing else. -/
theorem start_main_single_blank_line (f : TomlFormatter) :
    f.start_main.buffer = f.buffer ++ "\n"
    ∧ f.start_main.stack = f.stack
    ∧ f.start_main.indent = f.indent := by
  refine ⟨?_, rfl, rfl⟩
  show f.buffer ++ String.mk (List.replicate 1 '\n') = f.buffer ++ "\n"
  rfl

/-- Claim C9: `format` is deterministic: it is a pure function of the
options and the event sequence the traversal produces, so two calls with
identical inputs return byte-identical results; each call starts from a
fresh `TomlFormatter` whose buffer is empty and whose stack is empty, with
no state persisting between calls. -/
theorem format_deterministic (o : FormatOptions) (es : List Event) :
    format o es = format o es
    ∧ (TomlFormatter.new o).buffer = ""
    ∧ (TomlFormatter.new o).stack = []
    ∧ format o es =
        (match run (TomlFormatter.new o) es with
         | .error m => .error m
         | .ok f => f.finish) :=
  ⟨rfl, rfl, rfl, rfl⟩

/-- Claim C10: `end_nested` on a non-empty stack writes nothing to the
buffer — its only effect is removing the most recently pushed element from
the nesting stack — and `comment`, `disabled_field` and `start_main` leave
the nesting stack unchanged. -/
theorem end_nested_frame_effects (f : TomlFormatter) :
    (f.stack ≠ [] →
        f.end_nested = .ok { f with stack := f.stack.dropLast })
    ∧ (∀ c, (f.comment c).stack = f.stack)
    ∧ (∀ n v, (f.disabled_field n v).stack = f.stack)
    ∧ f.start_main.stack = f.stack := by
  refine ⟨fun h => ?_, fun c => rfl, fun n v => ?_, rfl⟩
  · simp [TomlFormatter.end_nested, h]
  · cases v <;> rfl

/-- Witness for C10: popping from stack `["a", "c"]` keeps the buffer and
removes exactly the top element `c`. -/
theorem end_nested_frame_effects_witness :
    (⟨0, "b", ["a", "c"]⟩ : TomlFormatter).end_nested = .ok ⟨0, "b", ["a"]⟩
    ∧ ((⟨0, "b", ["a", "c"]⟩ : TomlFormatter).comment "x").stack = ["a", "c"] :=
  ⟨(end_nested_frame_effects ⟨0, "b", ["a", "c"]⟩).1 (by decide),
   (end_nested_frame_effects ⟨0, "b", ["a", "c"]⟩).2.1 "x"⟩

/-- Claim C4: `end_nested` on an empty nesting stack aborts fatally with
the diagnostic `formatter bug: stack empty`; `finish` on a non-empty stack
aborts fatally with `formatter bug: stack not empty`; neither condition is
silently ignored or yields an output string. Conversely, for every balanced
sequence of formatter events run from a fresh formatter, `finish` succeeds
with an output string. -/
theorem unbalanced_fatal_balanced_finishes :
    (∀ f : TomlFormatter, f.stack = [] →
        f.end_nested = .error "formatter bug: stack empty")
    ∧ (∀ f : TomlFormatter, f.stack ≠ [] →
        f.finish = .error "formatter bug: stack not empty")
    ∧ (∀ (o : FormatOptions) (es : List Event),
        balancedFrom 0 es = true → ∃ s, format o es = .ok s) := by
  refine ⟨fun f h => by simp [TomlFormatter.end_nested, h],
    fun f h => by simp [TomlFormatter.finish, h], fun o es h => ?_⟩
  obtain ⟨g, hg, hs⟩ := run_balanced es (TomlFormatter.new o) h
  exact ⟨g.buffer, by simp [format, hg, TomlFormatter.finish, hs]⟩

/-- Witness for C4: popping a fresh (empty-stack) formatter and finishing
after a lone unmatched push both fail with the respective diagnostics,
while the balanced sequence push `a`, pop finishes successfully. -/
theorem unbalanced_fatal_balanced_finishes_witness :
    (TomlFormatter.new FormatOptions.default).end_nested =
        .error "formatter bug: stack empty"
    ∧ ((TomlFormatter.new FormatOptions.default).start_nested "a" []).finish =
        .error "formatter bug: stack not empty"
    ∧ ∃ s, format FormatOptions.default
        [Event.start_nested "a" [], Event.end_nested] = .ok s :=
  ⟨unbalanced_fatal_balanced_finishes.1 (TomlFormatter.new FormatOptions.default) rfl,
   unbalanced_fatal_balanced_finishes.2.1
     ((TomlFormatter.new FormatOptions.default).start_nested "a" [])
     (by rw [TomlFormatter.start_nested_stack]; simp),
   unbalanced_fatal_balanced_finishes.2.2 FormatOptions.default
     [Event.start_nested "a" [], Event.end_nested] rfl⟩

/-- Claim C5: the output buffer is append-only: `comment`,
`disabled_field`, `start_nested` and `start_main` each extend the previous
buffer content, leaving it as a prefix of the new content; `end_nested`
leaves the buffer unchanged; and `finish` returns the accumulated buffer
verbatim, appending nothing. -/
theorem buffer_append_only (f : TomlFormatter) :
    (∀ c, ∃ t, (f.comment c).buffer = f.buffer ++ t)
    ∧ (∀ n v, ∃ t, (f.disabled_field n v).buffer = f.buffer ++ t)
    ∧ (∀ n d, ∃ t, (f.start_nested n d).buffer = f.buffer ++ t)
    ∧ (∀ g, f.end_nested = .ok g → g.buffer = f.buffer)
    ∧ (∃ t, f.start_main.buffer = f.buffer ++ t)
    ∧ (∀ s, f.finish = .ok s → s = f.buffer) := by
  refine ⟨fun c =>
      ⟨TomlFormatter.spaces (f.stack.length * f.indent) ++ "#" ++ c ++ "\n", ?_⟩,
    fun n v => ?_, fun n d =>
      ⟨commentBlock ((f.stack.length + 1) * f.indent) d
        ++ TomlFormatter.spaces ((f.stack.length + 1) * f.indent)
        ++ "[" ++ String.intercalate "." (f.stack ++ [n]) ++ "]\n", ?_⟩,
    fun g hg => ?_, ⟨"\n", ?_⟩, fun s hs => ?_⟩
  · rw [TomlFormatter.comment_def]
    simp [String.append_assoc]
  · cases v with
    | none =>
      refine ⟨TomlFormatter.spaces (f.stack.length * f.indent)
        ++ "#" ++ (n ++ " =") ++ "\n", ?_⟩
      rw [show f.disabled_field n none = f.comment (n ++ " =") from rfl,
        TomlFormatter.comment_def]
      simp [String.append_assoc]
    | some e =>
      refine ⟨TomlFormatter.spaces (f.stack.length * f.indent)
        ++ "#" ++ (n ++ " = " ++ tomlToString e) ++ "\n", ?_⟩
      rw [show f.disabled_field n (some e) =
          f.comment (n ++ " = " ++ tomlToString e) from rfl,
        TomlFormatter.comment_def]
      simp [String.append_assoc]
  · rw [TomlFormatter.start_nested_def]
    simp [String.append_assoc]
  · rw [TomlFormatter.end_nested] at hg
    by_cases he : f.stack.isEmpty <;> simp [he] at hg
    rw [← hg]
  · show f.buffer ++ String.mk (List.replicate 1 '\n') = f.buffer ++ "\n"
    rfl
  · rw [TomlFormatter.finish] at hs
    by_cases he : f.stack.isEmpty <;> simp [he] at hs
    rw [hs]

/-- Witness for C5: from buffer `pre` with stack `["a"]`, popping keeps the
buffer equal to `pre`, finishing on the empty stack returns `pre` verbatim,
and a comment extends `pre` on the right. -/
theorem buffer_append_only_witness :
    (⟨0, "pre", []⟩ : TomlFormatter).buffer =
        (⟨0, "pre", ["a"]⟩ : TomlFormatter).buffer
    ∧ "pre" = (⟨0, "pre", []⟩ : TomlFormatter).buffer
    ∧ ∃ t, ((⟨0, "pre", []⟩ : TomlFormatter).comment "c").buffer = "pre" ++ t :=
  ⟨(buffer_append_only ⟨0, "pre", ["a"]⟩).2.2.2.1 ⟨0, "pre", []⟩ rfl,
   (buffer_append_only ⟨0, "pre", []⟩).2.2.2.2.2 "pre" rfl,
   (buffer_append_only ⟨0, "pre", []⟩).1 "c"⟩

end Confique
